import Mathlib

/-!
Shallow embedding of the Nedrysoft SettingsDialog widget
(src/SettingsDialog.cpp, src/SeparatorWidget.h/.cpp).

The dialog is compiled in two variants: on macOS a native toolbar window
with cross-fade page transitions, on other platforms a tree-list/tab
layout with OK/Cancel/Apply buttons.  Both variants are embedded here:
definitions suffixed or prefixed with Tree model the non-macOS code
paths, those with Mac model the macOS code paths.  Pages supplied by the
host (ISettingsPage) are modelled by the fields this widget consumes.
-/

set_option autoImplicit false

namespace SettingsDialogModel

/-- The ISettingsPage contract as consumed by the dialog: the section
used for grouping, the category used as a tab label, a description, and
the validation answer canAcceptSettings().  The widget produced by
createWidget() is identified with the page that created it.  The name
sectionName stands for the source accessor section(), which is a Lean
keyword. -/
structure ISettingsPage where
  sectionName : String
  category : String
  description : String
  canAcceptSettings : Bool
deriving DecidableEq

/-- QSize with integer width and height, as used by Qt. -/
structure QSize where
  w : Int
  h : Int
deriving DecidableEq

/- ===== String replacement (QString::replace), for updateStyleSheet ===== -/

/-- Scanning core of QString::replace(before, after): scan left to
right, replace each occurrence of pat, continue scanning after the
inserted replacement (the replacement text is not rescanned).  fuel
bounds the number of scan steps; the recursion is structural in fuel,
and fuel at least the length of the scanned list never runs out, since
each step consumes at least one character. -/
def replaceAllFuel (pat rep : List Char) : Nat → List Char → List Char
  | _, [] => []
  | 0, s => s
  | fuel + 1, c :: cs =>
    if pat ≠ [] ∧ pat.isPrefixOf (c :: cs) then
      rep ++ replaceAllFuel pat rep fuel ((c :: cs).drop pat.length)
    else
      c :: replaceAllFuel pat rep fuel cs

/-- QString::replace(before, after) on character lists. -/
def replaceAll (pat rep : List Char) (s : List Char) : List Char :=
  replaceAllFuel pat rep s.length s

/-- Whether pat occurs as a contiguous substring. -/
def hasSubstr (pat : List Char) : List Char → Bool
  | [] => pat.isEmpty
  | c :: cs => pat.isPrefixOf (c :: cs) || hasSubstr pat cs

def backgroundPlaceholder : String := "[background-colour]"

def baseBackgroundPlaceholder : String := "[base-background-colour]"

def darkBackgroundDecl : String := "background-color: #282c29;"

def darkBaseBackgroundDecl : String := "background-color: #202421;"

def emptyReplacement : String := ""

/-- Embeds SettingsDialog::updateStyleSheet (SettingsDialog.cpp lines
675-690): in dark mode replace every [background-colour] with the dark
background-color declaration and then every [base-background-colour]
with the dark base declaration; otherwise replace both with the empty
string.  The replacements are applied sequentially in that order, as in
the source. -/
def updateStyleSheet (styleSheet : String) (isDarkMode : Bool) : String :=
  if isDarkMode then
    String.mk (replaceAll baseBackgroundPlaceholder.toList darkBaseBackgroundDecl.toList
      (replaceAll backgroundPlaceholder.toList darkBackgroundDecl.toList styleSheet.toList))
  else
    String.mk (replaceAll baseBackgroundPlaceholder.toList emptyReplacement.toList
      (replaceAll backgroundPlaceholder.toList emptyReplacement.toList styleSheet.toList))

/-- Whether a pattern occurs in a string. -/
def containsPat (pat : String) (s : String) : Bool :=
  hasSubstr pat.toList s.toList

/- ===== Non-macOS (tree-list) layout ===== -/

/-- The SettingsPage record kept in m_pages on the non-macOS build:
one entry per incoming page, holding the section name and the page. -/
structure TreeSettingsPage where
  m_name : String
  m_pageSettings : ISettingsPage
deriving DecidableEq

/-- A top-level QTreeWidgetItem of the tree-list layout: its text is
the section, its data is a QTabWidget holding one tab per page of that
section (each tab identified with the page whose createWidget produced
its contents). -/
structure TreeWidgetItem where
  text : String
  tabs : List ISettingsPage
deriving DecidableEq

/-- Embeds the non-macOS SettingsDialog::addPage tree manipulation
(SettingsDialog.cpp lines 531-599): search the top-level items for one
whose text equals the section of the page; if found, add a tab to its
tab widget; otherwise append a new top-level item for the section with
the page as its first tab. -/
def addPageTree (items : List TreeWidgetItem) (page : ISettingsPage) : List TreeWidgetItem :=
  match items with
  | [] => [{ text := page.sectionName, tabs := [page] }]
  | item :: rest =>
    if item.text = page.sectionName then
      { item with tabs := item.tabs ++ [page] } :: rest
    else
      item :: addPageTree rest page

/-- The top-level tree items produced by the constructor loop
(SettingsDialog.cpp lines 221-235) on the non-macOS build: addPage is
called once per incoming page, in order. -/
def buildTree (pages : List ISettingsPage) : List TreeWidgetItem :=
  pages.foldl addPageTree []

/-- Non-macOS dialog state: the registered pages, the tree of
top-level items, and whether the Apply button is enabled (the source
constructs it with setDisabled(true)). -/
structure TreeDialog where
  m_pages : List TreeSettingsPage
  m_treeItems : List TreeWidgetItem
  applyEnabled : Bool
deriving DecidableEq

/-- Embeds the non-macOS constructor (SettingsDialog.cpp lines
102-235): the Apply button starts disabled, each incoming page is
registered in m_pages via addPage and connected so that its
settingsChanged signal enables Apply. -/
def mkTreeDialog (pages : List ISettingsPage) : TreeDialog :=
  { m_pages := pages.map (fun p => { m_name := p.sectionName, m_pageSettings := p })
    m_treeItems := buildTree pages
    applyEnabled := false }

/-- Embeds the early-exit validation loop over m_pages shared by the
non-macOS okToClose (lines 360-365) and the first loop of the
non-macOS acceptSettings (lines 652-658): stop with false at the
first page whose canAcceptSettings() is false. -/
def canAcceptLoop : List TreeSettingsPage → Bool
  | [] => true
  | p :: rest =>
    if !p.m_pageSettings.canAcceptSettings then false else canAcceptLoop rest

/-- Embeds SettingsDialog::okToClose (lines 358-368) on the non-macOS
build, where the validation loop is compiled in. -/
def okToCloseTree (s : TreeDialog) : Bool :=
  canAcceptLoop s.m_pages

/-- Result of a close request: whether the QCloseEvent was accepted and
whether the closed() signal was emitted. -/
structure CloseEventResult where
  accepted : Bool
  closedEmitted : Bool
deriving DecidableEq

/-- Embeds SettingsDialog::closeEvent (lines 616-624) on the non-macOS
build: accept the event and emit closed() when okToClose() holds,
otherwise ignore the event. -/
def closeEventTree (s : TreeDialog) : CloseEventResult :=
  if okToCloseTree s then
    { accepted := true, closedEmitted := true }
  else
    { accepted := false, closedEmitted := false }

/-- Embeds the non-macOS SettingsDialog::acceptSettings (lines 627,
651-673).  Returns the bool result, the list of pages on which
acceptSettings() was invoked (in m_pages order), and the dialog state
afterwards (on success the Apply button is disabled again). -/
def acceptSettingsTree (s : TreeDialog) : Bool × List ISettingsPage × TreeDialog :=
  let settingsValid := canAcceptLoop s.m_pages
  if !settingsValid then
    (false, [], s)
  else
    (true, s.m_pages.map (fun p => p.m_pageSettings), { s with applyEnabled := false })

/-- The events of the non-macOS dialog that touch the Apply button or
invoke acceptSettings: a registered page emitting settingsChanged, and
the three button clicks. -/
inductive DialogEvent where
  | settingsChanged
  | okClicked
  | applyClicked
  | cancelClicked
deriving DecidableEq

/-- One event step of the non-macOS dialog state: the settingsChanged
handler enables Apply (line 227-229); OK and Apply run acceptSettings
(lines 199-206); Cancel only calls close() (lines 208-210). -/
def stepTree (s : TreeDialog) (e : DialogEvent) : TreeDialog :=
  match e with
  | .settingsChanged => { s with applyEnabled := true }
  | .okClicked => (acceptSettingsTree s).2.2
  | .applyClicked => (acceptSettingsTree s).2.2
  | .cancelClicked => s

/-- Outcome of a button click: the dialog state afterwards, the pages
whose acceptSettings() ran, and whether the dialog actually closed
(close() delivers a QCloseEvent, which closeEvent accepts or
ignores). -/
structure ClickResult where
  state : TreeDialog
  acceptedPages : List ISettingsPage
  dialogClosed : Bool
deriving DecidableEq

/-- Embeds the OK click handler (lines 199-202): acceptSettings() then
close(); the close is vetoed by closeEvent when okToClose() fails. -/
def clickOk (s : TreeDialog) : ClickResult :=
  let r := acceptSettingsTree s
  let ce := closeEventTree r.2.2
  { state := r.2.2, acceptedPages := r.2.1, dialogClosed := ce.accepted }

/-- Embeds the Apply click handler (lines 204-206): acceptSettings()
only, no close request. -/
def clickApply (s : TreeDialog) : ClickResult :=
  let r := acceptSettingsTree s
  { state := r.2.2, acceptedPages := r.2.1, dialogClosed := false }

/-- Embeds the Cancel click handler (lines 208-210): close() only; the
close is vetoed by closeEvent when okToClose() fails. -/
def clickCancel (s : TreeDialog) : ClickResult :=
  let ce := closeEventTree s
  { state := s, acceptedPages := [], dialogClosed := ce.accepted }

/- ===== macOS (toolbar) layout ===== -/

/-- A child widget of a TransparentWidget container on the macOS
build: either a SeparatorWidget or the widget created by a page. -/
inductive MacChild where
  | separator
  | pageWidget (page : ISettingsPage)
deriving DecidableEq

/-- A TransparentWidget container of the macOS build.  objId models
the C++ object identity (heap address): the source compares container
pointers, and each call to the constructor yields a fresh identity.
children are the widgets added with addWidget, opacity the value of
the attached QGraphicsOpacityEffect, size and sizeHint the QWidget
geometry queries. -/
structure TransparentWidget where
  objId : Nat
  children : List MacChild
  opacity : Rat
  size : QSize
  sizeHint : QSize
deriving DecidableEq

/-- A fresh TransparentWidget(0, this): no children and opacity 0. -/
def newTransparentWidget (objId : Nat) : TransparentWidget :=
  { objId := objId, children := [], opacity := 0, size := { w := 0, h := 0 },
    sizeHint := { w := 0, h := 0 } }

/-- Embeds the widget insertion of the macOS addPage (SettingsDialog.cpp
lines 418-424): if the container already holds any widget, add a
SeparatorWidget first, then add the widget created by the page. -/
def addWidgetToContainer (w : TransparentWidget) (page : ISettingsPage) : TransparentWidget :=
  let w1 :=
    if w.children.length ≠ 0 then
      { w with children := w.children ++ [MacChild.separator] }
    else
      w
  { w1 with children := w1.children ++ [MacChild.pageWidget page] }

/-- The SettingsPage record of the macOS build: the section name, the
shared TransparentWidget container, every page of the section, and the
toolbar item created for the section (identified by a fresh id, since
the source keys m_pages on the MacToolbarItem pointer). -/
structure MacSettingsPage where
  m_name : String
  m_widget : TransparentWidget
  m_pageSettings : List ISettingsPage
  m_toolbarItem : Nat
deriving DecidableEq

/-- Embeds the macOS SettingsDialog::addPage (lines 401-529) effect on
the page registry: search the registry for an entry whose name equals
the section of the page; if found, add the page widget (preceded by a
separator) to its container and append the page to its m_pageSettings;
otherwise create a fresh container and toolbar item and append a new
entry.  freshId models the fresh object identities allocated when a
new section entry is created. -/
def addPageMac (entries : List MacSettingsPage) (freshId : Nat) (page : ISettingsPage) :
    List MacSettingsPage :=
  match entries with
  | [] =>
    [{ m_name := page.sectionName
       m_widget := addWidgetToContainer (newTransparentWidget freshId) page
       m_pageSettings := [page]
       m_toolbarItem := freshId }]
  | e :: rest =>
    if e.m_name = page.sectionName then
      { e with m_widget := addWidgetToContainer e.m_widget page
               m_pageSettings := e.m_pageSettings ++ [page] } :: rest
    else
      e :: addPageMac rest freshId page

/-- One constructor-loop step of the macOS build: addPage for the next
incoming page, with the next fresh object identity. -/
def buildMacStep (st : List MacSettingsPage × Nat) (page : ISettingsPage) :
    List MacSettingsPage × Nat :=
  (addPageMac st.1 st.2 page, st.2 + 1)

/-- The macOS page registry produced by the constructor loop
(lines 221-235): addPage once per incoming page, in order; distinct
fresh ids at every step model distinct heap allocations. -/
def buildMac (pages : List ISettingsPage) : List MacSettingsPage :=
  (pages.foldl buildMacStep ([], 0)).1

/-- The QParallelAnimationGroup built by the toolbar activation
handler: three size animations (size, minimumSize and maximumSize
share start and end values) plus the outgoing and incoming opacity
animations, each recorded with its target widget identity and its
start and end values. -/
structure AnimationGroup where
  sizeStart : QSize
  sizeEnd : QSize
  outgoingWidgetId : Nat
  outgoingStart : Rat
  outgoingEnd : Rat
  incomingWidgetId : Nat
  incomingStart : Rat
  incomingEnd : Rat
deriving DecidableEq

/-- macOS dialog state: the page registry, the current page, the
running animation group (nullptr when none), the fixed maximum width
computed by the constructor, the QWidget base-class size hint, and the
window geometry and title. -/
structure MacDialog where
  m_pages : List MacSettingsPage
  m_currentPage : Option MacSettingsPage
  m_animationGroup : Option AnimationGroup
  m_maximumWidth : Int
  qwidgetSizeHint : QSize
  windowSize : QSize
  windowTitle : String
deriving DecidableEq

/-- Embeds SettingsDialog::okToClose (lines 358-368) on the macOS
build: the validation loop is compiled out by the platform guard, so
the function returns true unconditionally. -/
def okToCloseMac (_d : MacDialog) : Bool :=
  true

/-- Embeds SettingsDialog::closeEvent (lines 616-624) on the macOS
build. -/
def closeEventMac (d : MacDialog) : CloseEventResult :=
  if okToCloseMac d then
    { accepted := true, closedEmitted := true }
  else
    { accepted := false, closedEmitted := false }

/-- Embeds the inner validation loop of the macOS acceptSettings
(lines 632-637): early break at the first section page whose
canAcceptSettings() is false. -/
def sectionLoopValid : List ISettingsPage → Bool
  | [] => true
  | q :: rest => if !q.canAcceptSettings then false else sectionLoopValid rest

/-- Embeds the outer validation loop of the macOS acceptSettings
(lines 631-638): the break leaves the inner loop only, so every entry
is visited and settingsValid stays false once cleared. -/
def pagesLoopValid (entries : List MacSettingsPage) (settingsValid : Bool) : Bool :=
  match entries with
  | [] => settingsValid
  | e :: rest =>
    pagesLoopValid rest (if sectionLoopValid e.m_pageSettings then settingsValid else false)

/-- The registered pages of the macOS registry in iteration order:
every m_pageSettings list in sequence. -/
def collectSettings : List MacSettingsPage → List ISettingsPage
  | [] => []
  | e :: rest => e.m_pageSettings ++ collectSettings rest

/-- Embeds the macOS SettingsDialog::acceptSettings (lines 627-650,
672): validate every registered page, and only when all validate
invoke acceptSettings() on each of them.  Returns the bool result and
the pages on which acceptSettings() was invoked. -/
def acceptSettingsMac (d : MacDialog) : Bool × List ISettingsPage :=
  let settingsValid := pagesLoopValid d.m_pages true
  if !settingsValid then
    (false, [])
  else
    (true, collectSettings d.m_pages)

/-- Models the shared mutation of a container object: every registry
entry holding the container with the given identity sees the new
opacity. -/
def setOpacityById (entries : List MacSettingsPage) (objId : Nat) (v : Rat) :
    List MacSettingsPage :=
  entries.map (fun e =>
    if e.m_widget.objId = objId then
      { e with m_widget := { e.m_widget with opacity := v } }
    else
      e)

/-- Embeds the toolbar item activation handler installed by the macOS
addPage (lines 453-527).  If no page is current, the activated page
becomes current, its container is made fully opaque, the window is
resized to the container size hint and retitled, and no animation is
touched.  Otherwise the current container is looked up through
m_pages by the toolbar item of the current page; when it is the very
container of the activated page nothing changes; otherwise any running
animation group is replaced by a new one fading the outgoing container
to transparent (AlphaTransparent = 0) and the incoming one to opaque
(AlphaOpaque = 1) while resizing to QSize(m_maximumWidth, incoming
sizeHint height), and the current page is set immediately. -/
def toolbarItemActivated (d : MacDialog) (settingsPage : MacSettingsPage) : MacDialog :=
  match d.m_currentPage with
  | none =>
    let w := { settingsPage.m_widget with opacity := 1 }
    { d with m_currentPage := some { settingsPage with m_widget := w }
             m_pages := setOpacityById d.m_pages settingsPage.m_widget.objId 1
             windowSize := w.sizeHint
             windowTitle := settingsPage.m_name }
  | some cur =>
    let currentItem :=
      ((d.m_pages.find? (fun e => e.m_toolbarItem == cur.m_toolbarItem)).map
        (fun e => e.m_widget)).getD (newTransparentWidget 0)
    let nextItem := settingsPage.m_widget
    if currentItem.objId = nextItem.objId then
      d
    else
      let minSize : QSize := { w := d.m_maximumWidth, h := nextItem.sizeHint.h }
      let group : AnimationGroup :=
        { sizeStart := currentItem.size, sizeEnd := minSize
          outgoingWidgetId := currentItem.objId
          outgoingStart := currentItem.opacity, outgoingEnd := 0
          incomingWidgetId := nextItem.objId
          incomingStart := nextItem.opacity, incomingEnd := 1 }
      { d with m_animationGroup := some group
               m_currentPage := some settingsPage }

/-- Embeds SettingsDialog::sizeHint (lines 334-340): the size hint of
the current page container when a page is current, the QWidget
base-class hint otherwise. -/
def dialogSizeHint (d : MacDialog) : QSize :=
  match d.m_currentPage with
  | some p => p.m_widget.sizeHint
  | none => d.qwidgetSizeHint

/-- Separator test for a container child. -/
def isSeparator : MacChild → Bool
  | .separator => true
  | .pageWidget _ => false

/-- Page widget test for a container child. -/
def isPageWidget : MacChild → Bool
  | .separator => false
  | .pageWidget _ => true

/- ===== Concrete fixtures used by witnesses and counterexamples ===== -/

def secGeneral : String := "General"

def secNetwork : String := "Network"

def catMain : String := "Main"

def catExtra : String := "Extra"

def descEmpty : String := ""

def noTitle : String := ""

/-- A page that validates. -/
def pageValid : ISettingsPage :=
  { sectionName := secGeneral, category := catMain, description := descEmpty,
    canAcceptSettings := true }

/-- A second valid page in the same section. -/
def pageValidSame : ISettingsPage :=
  { sectionName := secGeneral, category := catExtra, description := descEmpty,
    canAcceptSettings := true }

/-- A valid page in another section. -/
def pageValidOther : ISettingsPage :=
  { sectionName := secNetwork, category := catMain, description := descEmpty,
    canAcceptSettings := true }

/-- A page whose canAcceptSettings() is false. -/
def pageInvalid : ISettingsPage :=
  { sectionName := secGeneral, category := catMain, description := descEmpty,
    canAcceptSettings := false }

/- ===== Helper lemmas ===== -/

theorem canAcceptLoop_eq_all (l : List TreeSettingsPage) :
    canAcceptLoop l = l.all (fun p => p.m_pageSettings.canAcceptSettings) := by
  induction l with
  | nil => rfl
  | cons p rest ih =>
    simp only [canAcceptLoop, List.all_cons, ih]
    cases p.m_pageSettings.canAcceptSettings <;> simp

theorem sectionLoopValid_eq_all (l : List ISettingsPage) :
    sectionLoopValid l = l.all (fun q => q.canAcceptSettings) := by
  induction l with
  | nil => rfl
  | cons q rest ih =>
    simp only [sectionLoopValid, List.all_cons, ih]
    cases q.canAcceptSettings <;> simp

theorem pagesLoopValid_eq_all (entries : List MacSettingsPage) (acc : Bool) :
    pagesLoopValid entries acc
      = (acc && entries.all (fun e => sectionLoopValid e.m_pageSettings)) := by
  induction entries generalizing acc with
  | nil => simp [pagesLoopValid]
  | cons e rest ih =>
    simp only [pagesLoopValid, List.all_cons, ih]
    cases h : sectionLoopValid e.m_pageSettings <;> simp [h]

theorem collectSettings_all (entries : List MacSettingsPage)
    (f : ISettingsPage → Bool) :
    (collectSettings entries).all f = entries.all (fun e => e.m_pageSettings.all f) := by
  induction entries with
  | nil => rfl
  | cons e rest ih => simp [collectSettings, List.all_append, ih]

/-- The macOS validation loops compute validity of every registered
page, the inner break notwithstanding. -/
theorem pagesLoopValid_eq_collect (entries : List MacSettingsPage) :
    pagesLoopValid entries true
      = (collectSettings entries).all (fun q => q.canAcceptSettings) := by
  rw [pagesLoopValid_eq_all, collectSettings_all, Bool.true_and]
  refine congrArg (List.all entries) ?_
  funext e
  exact sectionLoopValid_eq_all e.m_pageSettings

/- ===== C1 ===== -/

/-- Claim C1: committing settings is rejected if any page reports it
cannot accept its current values.  On both builds acceptSettings()
returns true and invokes acceptSettings() on every registered page
exactly when every registered page validates; when some page does not
validate it returns false and invokes acceptSettings() on no page, so
the page settings are left unchanged on rejection. -/
theorem acceptSettings_commit_gate :
    (∀ s : TreeDialog,
      (acceptSettingsTree s).1
          = s.m_pages.all (fun p => p.m_pageSettings.canAcceptSettings)
        ∧ (acceptSettingsTree s).2.1
          = (if s.m_pages.all (fun p => p.m_pageSettings.canAcceptSettings) then
               s.m_pages.map (fun p => p.m_pageSettings)
             else []))
    ∧ (∀ d : MacDialog,
      (acceptSettingsMac d).1
          = (collectSettings d.m_pages).all (fun q => q.canAcceptSettings)
        ∧ (acceptSettingsMac d).2
          = (if (collectSettings d.m_pages).all (fun q => q.canAcceptSettings) then
               collectSettings d.m_pages
             else [])) := by
  constructor
  · intro s
    simp only [acceptSettingsTree, canAcceptLoop_eq_all]
    cases h : s.m_pages.all (fun p => p.m_pageSettings.canAcceptSettings) <;> simp [h]
  · intro d
    simp only [acceptSettingsMac, pagesLoopValid_eq_collect]
    cases h : (collectSettings d.m_pages).all (fun q => q.canAcceptSettings) <;> simp [h]

/- ===== C2 ===== -/

/-- A macOS dialog holding a single page that does not validate. -/
def c2MacDialog : MacDialog :=
  { m_pages := [{ m_name := secGeneral, m_widget := newTransparentWidget 0,
                  m_pageSettings := [pageInvalid], m_toolbarItem := 0 }]
    m_currentPage := none
    m_animationGroup := none
    m_maximumWidth := 300
    qwidgetSizeHint := { w := 0, h := 0 }
    windowSize := { w := 0, h := 0 }
    windowTitle := noTitle }

/-- Claim C2 counterexample: on the macOS build the validation loop of
okToClose() is compiled out, so a dialog holding a page whose
canAcceptSettings() is false still reports okToClose() = true; the
claimed equivalence fails on that platform. -/
theorem okToClose_counterexample :
    okToCloseMac c2MacDialog = true
      ∧ (collectSettings c2MacDialog.m_pages).all (fun q => q.canAcceptSettings) = false := by
  decide

/-- Claim C2 (amended): okToClose() returns true exactly when every
registered page validates on the tree-list (non-macOS) build; on the
macOS build the validation loop is compiled out and okToClose()
returns true unconditionally. -/
theorem okToClose_gate :
    (∀ s : TreeDialog,
      okToCloseTree s = s.m_pages.all (fun p => p.m_pageSettings.canAcceptSettings))
    ∧ (∀ d : MacDialog, okToCloseMac d = true) := by
  refine ⟨fun s => ?_, fun d => rfl⟩
  exact canAcceptLoop_eq_all s.m_pages

theorem closeEventTree_accepted (s : TreeDialog) :
    (closeEventTree s).accepted = okToCloseTree s := by
  simp only [closeEventTree]
  cases h : okToCloseTree s <;> simp [h]

theorem closeEventTree_emitted (s : TreeDialog) :
    (closeEventTree s).closedEmitted = okToCloseTree s := by
  simp only [closeEventTree]
  cases h : okToCloseTree s <;> simp [h]

theorem acceptSettingsTree_pages (s : TreeDialog) :
    ((acceptSettingsTree s).2.2).m_pages = s.m_pages := by
  simp only [acceptSettingsTree]
  cases h : canAcceptLoop s.m_pages <;> simp [h]

/- ===== C3 ===== -/

/-- Claim C3: closeEvent accepts the close request and emits the
closed() notification exactly when okToClose() returns true, and
otherwise ignores the event and emits nothing, on both builds. -/
theorem closeEvent_gate :
    (∀ s : TreeDialog,
      (closeEventTree s).accepted = okToCloseTree s
        ∧ (closeEventTree s).closedEmitted = okToCloseTree s)
    ∧ (∀ d : MacDialog,
      (closeEventMac d).accepted = okToCloseMac d
        ∧ (closeEventMac d).closedEmitted = okToCloseMac d) := by
  refine ⟨fun s => ⟨closeEventTree_accepted s, closeEventTree_emitted s⟩, fun d => ?_⟩
  simp only [closeEventMac]
  cases h : okToCloseMac d <;> simp [h]

/- ===== C4 ===== -/

/-- Claim C4: the Apply button is constructed disabled, a transition
from disabled to enabled happens only on the settingsChanged
notification of a registered page, and a successful acceptSettings()
commit disables it again. -/
theorem applyButton_lifecycle :
    (∀ pages : List ISettingsPage, (mkTreeDialog pages).applyEnabled = false)
    ∧ (∀ (s : TreeDialog) (e : DialogEvent),
        s.applyEnabled = false → (stepTree s e).applyEnabled = true →
          e = DialogEvent.settingsChanged)
    ∧ (∀ s : TreeDialog,
        (acceptSettingsTree s).1 = true →
          ((acceptSettingsTree s).2.2).applyEnabled = false) := by
  refine ⟨fun pages => rfl, fun s e h1 h2 => ?_, fun s h => ?_⟩
  · cases e with
    | settingsChanged => rfl
    | okClicked =>
      exfalso
      simp only [stepTree, acceptSettingsTree] at h2
      cases hv : canAcceptLoop s.m_pages <;> simp [hv, h1] at h2
    | applyClicked =>
      exfalso
      simp only [stepTree, acceptSettingsTree] at h2
      cases hv : canAcceptLoop s.m_pages <;> simp [hv, h1] at h2
    | cancelClicked =>
      exfalso
      simp only [stepTree] at h2
      rw [h1] at h2
      exact Bool.false_ne_true h2
  · simp only [acceptSettingsTree] at h ⊢
    cases hv : canAcceptLoop s.m_pages <;> simp [hv] at h ⊢

/-- Witness for C4 at a concrete dialog built from one valid page. -/
theorem applyButton_lifecycle_witness :
    DialogEvent.settingsChanged = DialogEvent.settingsChanged
      ∧ ((acceptSettingsTree (mkTreeDialog [pageValid])).2.2).applyEnabled = false :=
  ⟨applyButton_lifecycle.2.1 (mkTreeDialog [pageValid]) DialogEvent.settingsChanged
      (by decide) (by decide),
   applyButton_lifecycle.2.2 (mkTreeDialog [pageValid]) (by decide)⟩

/- ===== C5 ===== -/

/-- A tree-layout dialog holding a single page that does not validate. -/
def c5Dialog : TreeDialog := mkTreeDialog [pageInvalid]

/-- Claim C5 counterexample: with a page whose canAcceptSettings() is
false, clicking OK invokes no page acceptSettings() and the dialog
does not close (close() is vetoed by closeEvent), and clicking Cancel
does not close the dialog either, contradicting the claim that OK
commits and closes and that Cancel closes. -/
theorem buttons_counterexample :
    (clickOk c5Dialog).dialogClosed = false
      ∧ (clickOk c5Dialog).acceptedPages = []
      ∧ (clickCancel c5Dialog).dialogClosed = false := by
  decide

/-- Claim C5 (amended): clicking OK invokes the acceptSettings()
commit (which invokes every page acceptSettings() exactly when all
pages validate) and then requests close, the dialog actually closing
exactly when okToClose() holds; clicking Apply invokes the commit
without any close request; clicking Cancel requests close without
invoking any page acceptSettings(), the dialog closing exactly when
okToClose() holds. -/
theorem buttons_behaviour :
    ∀ s : TreeDialog,
      (clickOk s).acceptedPages = (acceptSettingsTree s).2.1
        ∧ (clickOk s).dialogClosed = okToCloseTree s
        ∧ (clickApply s).acceptedPages = (acceptSettingsTree s).2.1
        ∧ (clickApply s).dialogClosed = false
        ∧ (clickCancel s).acceptedPages = []
        ∧ (clickCancel s).dialogClosed = okToCloseTree s := by
  intro s
  refine ⟨rfl, ?_, rfl, rfl, rfl, ?_⟩
  · show (closeEventTree (acceptSettingsTree s).2.2).accepted = okToCloseTree s
    rw [closeEventTree_accepted]
    simp only [okToCloseTree, acceptSettingsTree_pages]
  · exact closeEventTree_accepted s

/- ===== Grouping lemmas, tree-list layout ===== -/

theorem addPageTree_map_text (items : List TreeWidgetItem) (p : ISettingsPage) :
    (addPageTree items p).map (fun it => it.text)
      = if p.sectionName ∈ items.map (fun it => it.text) then
          items.map (fun it => it.text)
        else
          items.map (fun it => it.text) ++ [p.sectionName] := by
  induction items with
  | nil => simp [addPageTree]
  | cons item rest ih =>
    by_cases h : item.text = p.sectionName
    · simp only [addPageTree, if_pos h, List.map_cons, List.mem_cons]
      rw [if_pos (Or.inl h.symm)]
    · simp only [addPageTree, if_neg h, List.map_cons, ih, List.mem_cons]
      by_cases h2 : p.sectionName ∈ rest.map (fun it => it.text)
      · rw [if_pos h2, if_pos (Or.inr h2)]
      · rw [if_neg h2]
        have hn : ¬(p.sectionName = item.text
            ∨ p.sectionName ∈ rest.map (fun it => it.text)) := by
          rintro (heq | hm)
          · exact h heq.symm
          · exact h2 hm
        rw [if_neg hn]
        simp

theorem mem_text_addPageTree (items : List TreeWidgetItem) (p : ISettingsPage)
    (sec : String) :
    sec ∈ (addPageTree items p).map (fun it => it.text)
      ↔ sec ∈ items.map (fun it => it.text) ∨ sec = p.sectionName := by
  rw [addPageTree_map_text]
  by_cases h : p.sectionName ∈ items.map (fun it => it.text)
  · rw [if_pos h]
    refine ⟨Or.inl, ?_⟩
    rintro (hm | rfl)
    · exact hm
    · exact h
  · rw [if_neg h]
    simp [List.mem_append]

theorem nodup_text_addPageTree (items : List TreeWidgetItem) (p : ISettingsPage)
    (hn : (items.map (fun it => it.text)).Nodup) :
    ((addPageTree items p).map (fun it => it.text)).Nodup := by
  rw [addPageTree_map_text]
  by_cases h : p.sectionName ∈ items.map (fun it => it.text)
  · rwa [if_pos h]
  · rw [if_neg h]
    simp [List.nodup_append, hn, h]

theorem mem_text_foldl_addPageTree (ps : List ISettingsPage)
    (acc : List TreeWidgetItem) (sec : String) :
    sec ∈ (ps.foldl addPageTree acc).map (fun it => it.text)
      ↔ sec ∈ acc.map (fun it => it.text) ∨ sec ∈ ps.map (fun p => p.sectionName) := by
  induction ps generalizing acc with
  | nil => simp
  | cons p ps ih =>
    simp only [List.foldl_cons, ih, mem_text_addPageTree, List.map_cons, List.mem_cons]
    tauto

theorem nodup_text_foldl_addPageTree (ps : List ISettingsPage)
    (acc : List TreeWidgetItem) (hn : (acc.map (fun it => it.text)).Nodup) :
    ((ps.foldl addPageTree acc).map (fun it => it.text)).Nodup := by
  induction ps generalizing acc with
  | nil => exact hn
  | cons p ps ih => exact ih (addPageTree acc p) (nodup_text_addPageTree acc p hn)

theorem aligned_addPageTree (items : List TreeWidgetItem) (p : ISettingsPage) :
    (∀ it ∈ items, ∀ q ∈ it.tabs, q.sectionName = it.text) →
      ∀ it ∈ addPageTree items p, ∀ q ∈ it.tabs, q.sectionName = it.text := by
  induction items with
  | nil =>
    intro _ it hit q hq
    simp only [addPageTree, List.mem_singleton] at hit
    subst hit
    simp only [List.mem_singleton] at hq
    subst hq
    rfl
  | cons item rest ih =>
    intro h it hit q hq
    by_cases hcase : item.text = p.sectionName
    · simp only [addPageTree, if_pos hcase, List.mem_cons] at hit
      rcases hit with heq | hmem
      · subst heq
        simp only [List.mem_append, List.mem_singleton] at hq
        rcases hq with hq0 | hq1
        · exact h item (List.mem_cons_self item rest) q hq0
        · subst hq1
          exact hcase.symm
      · exact h it (List.mem_cons_of_mem item hmem) q hq
    · simp only [addPageTree, if_neg hcase, List.mem_cons] at hit
      rcases hit with heq | hmem
      · subst heq
        exact h it (List.mem_cons_self it rest) q hq
      · exact ih (fun it2 h2 => h it2 (List.mem_cons_of_mem item h2)) it hmem q hq

theorem aligned_foldl_addPageTree (ps : List ISettingsPage)
    (acc : List TreeWidgetItem)
    (h : ∀ it ∈ acc, ∀ q ∈ it.tabs, q.sectionName = it.text) :
    ∀ it ∈ ps.foldl addPageTree acc, ∀ q ∈ it.tabs, q.sectionName = it.text := by
  induction ps generalizing acc with
  | nil => exact h
  | cons p ps ih => exact ih (addPageTree acc p) (aligned_addPageTree acc p h)

theorem self_mem_addPageTree (items : List TreeWidgetItem) (p : ISettingsPage) :
    ∃ it, it ∈ addPageTree items p ∧ p ∈ it.tabs := by
  induction items with
  | nil =>
    refine ⟨{ text := p.sectionName, tabs := [p] }, ?_, ?_⟩ <;> simp [addPageTree]
  | cons item rest ih =>
    by_cases h : item.text = p.sectionName
    · refine ⟨{ item with tabs := item.tabs ++ [p] }, ?_, ?_⟩ <;> simp [addPageTree, h]
    · obtain ⟨it, hit, hp⟩ := ih
      refine ⟨it, ?_, hp⟩
      simp only [addPageTree, if_neg h, List.mem_cons]
      exact Or.inr hit

theorem mem_tabs_addPageTree (items : List TreeWidgetItem) (p q : ISettingsPage)
    (it0 : TreeWidgetItem) (h0 : it0 ∈ items) (hq : q ∈ it0.tabs) :
    ∃ it, it ∈ addPageTree items p ∧ q ∈ it.tabs := by
  induction items with
  | nil => simp at h0
  | cons item rest ih =>
    by_cases h : item.text = p.sectionName
    · rcases List.mem_cons.mp h0 with heq | hm
      · subst heq
        refine ⟨{ it0 with tabs := it0.tabs ++ [p] }, ?_, ?_⟩
        · simp [addPageTree, h]
        · simp [hq]
      · refine ⟨it0, ?_, hq⟩
        simp only [addPageTree, if_pos h, List.mem_cons]
        exact Or.inr hm
    · rcases List.mem_cons.mp h0 with heq | hm
      · subst heq
        refine ⟨it0, ?_, hq⟩
        simp [addPageTree, h]
      · obtain ⟨it, hit, hq2⟩ := ih hm
        refine ⟨it, ?_, hq2⟩
        simp only [addPageTree, if_neg h, List.mem_cons]
        exact Or.inr hit

theorem mem_tabs_foldl_addPageTree (ps : List ISettingsPage)
    (acc : List TreeWidgetItem) (q : ISettingsPage)
    (h : ∃ it, it ∈ acc ∧ q ∈ it.tabs) :
    ∃ it, it ∈ ps.foldl addPageTree acc ∧ q ∈ it.tabs := by
  induction ps generalizing acc with
  | nil => exact h
  | cons p ps ih =>
    obtain ⟨it0, h0, hq⟩ := h
    exact ih (addPageTree acc p) (mem_tabs_addPageTree acc p q it0 h0 hq)

theorem page_placed_foldl_addPageTree (ps : List ISettingsPage)
    (acc : List TreeWidgetItem) (p : ISettingsPage) (h : p ∈ ps) :
    ∃ it, it ∈ ps.foldl addPageTree acc ∧ p ∈ it.tabs := by
  induction ps generalizing acc with
  | nil => simp at h
  | cons p0 ps ih =>
    rcases List.mem_cons.mp h with heq | hm
    · subst heq
      exact mem_tabs_foldl_addPageTree ps (addPageTree acc p) p
        (self_mem_addPageTree acc p)
    · exact ih (addPageTree acc p0) hm

/- ===== Grouping lemmas, macOS toolbar layout ===== -/

theorem addPageMac_map_name (entries : List MacSettingsPage) (n : Nat)
    (p : ISettingsPage) :
    (addPageMac entries n p).map (fun e => e.m_name)
      = if p.sectionName ∈ entries.map (fun e => e.m_name) then
          entries.map (fun e => e.m_name)
        else
          entries.map (fun e => e.m_name) ++ [p.sectionName] := by
  induction entries with
  | nil => simp [addPageMac]
  | cons e rest ih =>
    by_cases h : e.m_name = p.sectionName
    · simp only [addPageMac, if_pos h, List.map_cons, List.mem_cons]
      rw [if_pos (Or.inl h.symm)]
    · simp only [addPageMac, if_neg h, List.map_cons, ih, List.mem_cons]
      by_cases h2 : p.sectionName ∈ rest.map (fun e => e.m_name)
      · rw [if_pos h2, if_pos (Or.inr h2)]
      · rw [if_neg h2]
        have hn : ¬(p.sectionName = e.m_name
            ∨ p.sectionName ∈ rest.map (fun e => e.m_name)) := by
          rintro (heq | hm)
          · exact h heq.symm
          · exact h2 hm
        rw [if_neg hn]
        simp

theorem mem_name_addPageMac (entries : List MacSettingsPage) (n : Nat)
    (p : ISettingsPage) (sec : String) :
    sec ∈ (addPageMac entries n p).map (fun e => e.m_name)
      ↔ sec ∈ entries.map (fun e => e.m_name) ∨ sec = p.sectionName := by
  rw [addPageMac_map_name]
  by_cases h : p.sectionName ∈ entries.map (fun e => e.m_name)
  · rw [if_pos h]
    refine ⟨Or.inl, ?_⟩
    rintro (hm | rfl)
    · exact hm
    · exact h
  · rw [if_neg h]
    simp [List.mem_append]

theorem nodup_name_addPageMac (entries : List MacSettingsPage) (n : Nat)
    (p : ISettingsPage)
    (hn : (entries.map (fun e => e.m_name)).Nodup) :
    ((addPageMac entries n p).map (fun e => e.m_name)).Nodup := by
  rw [addPageMac_map_name]
  by_cases h : p.sectionName ∈ entries.map (fun e => e.m_name)
  · rwa [if_pos h]
  · rw [if_neg h]
    simp [List.nodup_append, hn, h]

theorem mem_name_foldl_buildMacStep (ps : List ISettingsPage)
    (acc : List MacSettingsPage) (n : Nat) (sec : String) :
    sec ∈ ((ps.foldl buildMacStep (acc, n)).1.map (fun e => e.m_name))
      ↔ sec ∈ acc.map (fun e => e.m_name) ∨ sec ∈ ps.map (fun p => p.sectionName) := by
  induction ps generalizing acc n with
  | nil => simp
  | cons p ps ih =>
    simp only [List.foldl_cons, buildMacStep, ih, mem_name_addPageMac,
      List.map_cons, List.mem_cons]
    tauto

theorem nodup_name_foldl_buildMacStep (ps : List ISettingsPage)
    (acc : List MacSettingsPage) (n : Nat)
    (hn : (acc.map (fun e => e.m_name)).Nodup) :
    (((ps.foldl buildMacStep (acc, n)).1.map (fun e => e.m_name))).Nodup := by
  induction ps generalizing acc n with
  | nil => exact hn
  | cons p ps ih =>
    simp only [List.foldl_cons, buildMacStep]
    exact ih (addPageMac acc n p) (n + 1) (nodup_name_addPageMac acc n p hn)

theorem aligned_addPageMac (entries : List MacSettingsPage) (n : Nat)
    (p : ISettingsPage) :
    (∀ e ∈ entries, ∀ q ∈ e.m_pageSettings, q.sectionName = e.m_name) →
      ∀ e ∈ addPageMac entries n p, ∀ q ∈ e.m_pageSettings, q.sectionName = e.m_name := by
  induction entries with
  | nil =>
    intro _ e he q hq
    simp only [addPageMac, List.mem_singleton] at he
    subst he
    simp only [List.mem_singleton] at hq
    subst hq
    rfl
  | cons e0 rest ih =>
    intro h e he q hq
    by_cases hcase : e0.m_name = p.sectionName
    · simp only [addPageMac, if_pos hcase, List.mem_cons] at he
      rcases he with heq | hmem
      · subst heq
        simp only [List.mem_append, List.mem_singleton] at hq
        rcases hq with hq0 | hq1
        · exact h e0 (List.mem_cons_self e0 rest) q hq0
        · subst hq1
          exact hcase.symm
      · exact h e (List.mem_cons_of_mem e0 hmem) q hq
    · simp only [addPageMac, if_neg hcase, List.mem_cons] at he
      rcases he with heq | hmem
      · subst heq
        exact h e (List.mem_cons_self e rest) q hq
      · exact ih (fun e2 h2 => h e2 (List.mem_cons_of_mem e0 h2)) e hmem q hq

theorem aligned_foldl_buildMacStep (ps : List ISettingsPage)
    (acc : List MacSettingsPage) (n : Nat)
    (h : ∀ e ∈ acc, ∀ q ∈ e.m_pageSettings, q.sectionName = e.m_name) :
    ∀ e ∈ (ps.foldl buildMacStep (acc, n)).1,
      ∀ q ∈ e.m_pageSettings, q.sectionName = e.m_name := by
  induction ps generalizing acc n with
  | nil => exact h
  | cons p ps ih =>
    simp only [List.foldl_cons, buildMacStep]
    exact ih (addPageMac acc n p) (n + 1) (aligned_addPageMac acc n p h)

theorem self_mem_addPageMac (entries : List MacSettingsPage) (n : Nat)
    (p : ISettingsPage) :
    ∃ e, e ∈ addPageMac entries n p ∧ p ∈ e.m_pageSettings := by
  induction entries with
  | nil =>
    refine ⟨_, List.mem_singleton_self _, ?_⟩
    simp
  | cons e0 rest ih =>
    by_cases h : e0.m_name = p.sectionName
    · refine ⟨{ e0 with m_widget := addWidgetToContainer e0.m_widget p
                        m_pageSettings := e0.m_pageSettings ++ [p] }, ?_, ?_⟩
      · simp [addPageMac, h]
      · simp
    · obtain ⟨e, he, hp⟩ := ih
      refine ⟨e, ?_, hp⟩
      simp only [addPageMac, if_neg h, List.mem_cons]
      exact Or.inr he

theorem mem_settings_addPageMac (entries : List MacSettingsPage) (n : Nat)
    (p q : ISettingsPage) (e0 : MacSettingsPage)
    (h0 : e0 ∈ entries) (hq : q ∈ e0.m_pageSettings) :
    ∃ e, e ∈ addPageMac entries n p ∧ q ∈ e.m_pageSettings := by
  induction entries with
  | nil => simp at h0
  | cons e1 rest ih =>
    by_cases h : e1.m_name = p.sectionName
    · rcases List.mem_cons.mp h0 with heq | hm
      · subst heq
        refine ⟨{ e0 with m_widget := addWidgetToContainer e0.m_widget p
                          m_pageSettings := e0.m_pageSettings ++ [p] }, ?_, ?_⟩
        · simp [addPageMac, h]
        · simp [hq]
      · refine ⟨e0, ?_, hq⟩
        simp only [addPageMac, if_pos h, List.mem_cons]
        exact Or.inr hm
    · rcases List.mem_cons.mp h0 with heq | hm
      · subst heq
        refine ⟨e0, ?_, hq⟩
        simp [addPageMac, h]
      · obtain ⟨e, he, hq2⟩ := ih hm
        refine ⟨e, ?_, hq2⟩
        simp only [addPageMac, if_neg h, List.mem_cons]
        exact Or.inr he

theorem mem_settings_foldl_buildMacStep (ps : List ISettingsPage)
    (acc : List MacSettingsPage) (n : Nat) (q : ISettingsPage)
    (h : ∃ e, e ∈ acc ∧ q ∈ e.m_pageSettings) :
    ∃ e, e ∈ (ps.foldl buildMacStep (acc, n)).1 ∧ q ∈ e.m_pageSettings := by
  induction ps generalizing acc n with
  | nil => exact h
  | cons p ps ih =>
    obtain ⟨e0, h0, hq⟩ := h
    simp only [List.foldl_cons, buildMacStep]
    exact ih (addPageMac acc n p) (n + 1) (mem_settings_addPageMac acc n p q e0 h0 hq)

theorem page_placed_foldl_buildMacStep (ps : List ISettingsPage)
    (acc : List MacSettingsPage) (n : Nat) (p : ISettingsPage) (h : p ∈ ps) :
    ∃ e, e ∈ (ps.foldl buildMacStep (acc, n)).1 ∧ p ∈ e.m_pageSettings := by
  induction ps generalizing acc n with
  | nil => simp at h
  | cons p0 ps ih =>
    simp only [List.foldl_cons, buildMacStep]
    rcases List.mem_cons.mp h with heq | hm
    · subst heq
      exact mem_settings_foldl_buildMacStep ps (addPageMac acc n p) (n + 1) p
        (self_mem_addPageMac acc n p)
    · exact ih (addPageMac acc n p0) (n + 1) hm

/- ===== C6 ===== -/

/-- Claim C6: incoming pages are grouped by section.  On both layouts,
after construction the top-level entries (tree items, respectively
toolbar sections) carry pairwise distinct section names, a section name
appears among the entries exactly when some incoming page carries it,
every entry holds only pages of its own section, every incoming page is
placed under some entry (hence, by the alignment, under the entry of
its own section), and adding a page whose section already has an entry
leaves the list of top-level entries unchanged. -/
theorem pages_grouped_by_section :
    (∀ pages : List ISettingsPage,
      ((buildTree pages).map (fun it => it.text)).Nodup
        ∧ (∀ sec, sec ∈ (buildTree pages).map (fun it => it.text)
            ↔ sec ∈ pages.map (fun p => p.sectionName))
        ∧ (∀ it ∈ buildTree pages, ∀ q ∈ it.tabs, q.sectionName = it.text)
        ∧ (∀ p ∈ pages, ∃ it, it ∈ buildTree pages ∧ p ∈ it.tabs))
    ∧ (∀ (items : List TreeWidgetItem) (p : ISettingsPage),
        p.sectionName ∈ items.map (fun it => it.text) →
          (addPageTree items p).map (fun it => it.text)
            = items.map (fun it => it.text))
    ∧ (∀ pages : List ISettingsPage,
      ((buildMac pages).map (fun e => e.m_name)).Nodup
        ∧ (∀ sec, sec ∈ (buildMac pages).map (fun e => e.m_name)
            ↔ sec ∈ pages.map (fun p => p.sectionName))
        ∧ (∀ e ∈ buildMac pages, ∀ q ∈ e.m_pageSettings, q.sectionName = e.m_name)
        ∧ (∀ p ∈ pages, ∃ e, e ∈ buildMac pages ∧ p ∈ e.m_pageSettings))
    ∧ (∀ (entries : List MacSettingsPage) (n : Nat) (p : ISettingsPage),
        p.sectionName ∈ entries.map (fun e => e.m_name) →
          (addPageMac entries n p).map (fun e => e.m_name)
            = entries.map (fun e => e.m_name)) := by
  refine ⟨fun pages => ⟨?_, fun sec => ?_, ?_, fun p hp => ?_⟩,
          fun items p hmem => ?_,
          fun pages => ⟨?_, fun sec => ?_, ?_, fun p hp => ?_⟩,
          fun entries n p hmem => ?_⟩
  · exact nodup_text_foldl_addPageTree pages [] (by simp)
  · simpa using mem_text_foldl_addPageTree pages [] sec
  · exact aligned_foldl_addPageTree pages [] (by simp)
  · exact page_placed_foldl_addPageTree pages [] p hp
  · rw [addPageTree_map_text, if_pos hmem]
  · exact nodup_name_foldl_buildMacStep pages [] 0 (by simp)
  · simpa using mem_name_foldl_buildMacStep pages [] 0 sec
  · exact aligned_foldl_buildMacStep pages [] 0 (by simp)
  · exact page_placed_foldl_buildMacStep pages [] 0 p hp
  · rw [addPageMac_map_name, if_pos hmem]

/-- Witness for C6 at a concrete page list with a repeated section:
the alignment and the no-new-entry parts applied with their membership
hypotheses discharged by computation. -/
theorem pages_grouped_by_section_witness :
    pageValidSame.sectionName
        = ({ text := secGeneral, tabs := [pageValid, pageValidSame] } : TreeWidgetItem).text
      ∧ (addPageTree (buildTree [pageValid, pageValidOther]) pageValidSame).map
            (fun it => it.text)
          = (buildTree [pageValid, pageValidOther]).map (fun it => it.text) :=
  ⟨(pages_grouped_by_section.1 [pageValid, pageValidOther, pageValidSame]).2.2.1
      { text := secGeneral, tabs := [pageValid, pageValidSame] } (by decide)
      pageValidSame (by decide),
   pages_grouped_by_section.2.1 (buildTree [pageValid, pageValidOther]) pageValidSame
      (by decide)⟩

/- ===== C7 ===== -/

/-- Container of the General section in the C7 fixtures. -/
def widgetA : TransparentWidget :=
  { objId := 1, children := [MacChild.pageWidget pageValid], opacity := 1,
    size := { w := 300, h := 150 }, sizeHint := { w := 300, h := 150 } }

/-- Container of the Network section in the C7 fixtures; its size hint
width 300 is below the dialog maximum width 500. -/
def widgetB : TransparentWidget :=
  { objId := 2, children := [MacChild.pageWidget pageValidOther], opacity := 0,
    size := { w := 300, h := 180 }, sizeHint := { w := 300, h := 200 } }

def entryA : MacSettingsPage :=
  { m_name := secGeneral, m_widget := widgetA, m_pageSettings := [pageValid],
    m_toolbarItem := 1 }

def entryB : MacSettingsPage :=
  { m_name := secNetwork, m_widget := widgetB, m_pageSettings := [pageValidOther],
    m_toolbarItem := 2 }

/-- macOS dialog fixture: General is current, no animation is running,
and the maximum width is 500. -/
def c7Dialog : MacDialog :=
  { m_pages := [entryA, entryB]
    m_currentPage := some entryA
    m_animationGroup := none
    m_maximumWidth := 500
    qwidgetSizeHint := { w := 120, h := 80 }
    windowSize := { w := 500, h := 150 }
    windowTitle := secGeneral }

/-- The same dialog with no current page. -/
def c7DialogNoCurrent : MacDialog :=
  { c7Dialog with m_currentPage := none }

/-- Claim C7 counterexample: activating the Network item from the
General page starts an animation whose size target is QSize(500, 200),
the fixed dialog maximum width paired with the incoming size-hint
height, which differs from both the size and the size hint of the
incoming container, contradicting the claim that the animation resizes
to the incoming page size. -/
theorem crossFade_counterexample :
    ((toolbarItemActivated c7Dialog entryB).m_animationGroup).map (fun g => g.sizeEnd)
        = some { w := 500, h := 200 }
      ∧ ({ w := 500, h := 200 } : QSize) ≠ entryB.m_widget.size
      ∧ ({ w := 500, h := 200 } : QSize) ≠ entryB.m_widget.sizeHint := by
  decide

/-- Claim C7 (amended): on activation of a toolbar item, if no page is
current the activated page becomes current with its container fully
opaque and the animation state untouched; if the container of the
activated page is the very container of the current page nothing
changes; otherwise the running animation group, if any, is replaced by
a freshly started one that fades the outgoing container to transparent
and the incoming container to opaque while resizing to the dialog
maximum width paired with the incoming size-hint height, and the
current page is set to the activated page immediately, before the
animation finishes. -/
theorem crossFade_sequence :
    (∀ (d : MacDialog) (sp : MacSettingsPage),
        d.m_currentPage = none →
          (toolbarItemActivated d sp).m_currentPage
              = some { sp with m_widget := { sp.m_widget with opacity := 1 } }
            ∧ (toolbarItemActivated d sp).m_animationGroup = d.m_animationGroup)
    ∧ (∀ (d : MacDialog) (sp cur entry : MacSettingsPage),
        d.m_currentPage = some cur →
        d.m_pages.find? (fun e => e.m_toolbarItem == cur.m_toolbarItem) = some entry →
        entry.m_widget.objId = sp.m_widget.objId →
          toolbarItemActivated d sp = d)
    ∧ (∀ (d : MacDialog) (sp cur entry : MacSettingsPage),
        d.m_currentPage = some cur →
        d.m_pages.find? (fun e => e.m_toolbarItem == cur.m_toolbarItem) = some entry →
        entry.m_widget.objId ≠ sp.m_widget.objId →
          (toolbarItemActivated d sp).m_animationGroup
              = some { sizeStart := entry.m_widget.size
                       sizeEnd := { w := d.m_maximumWidth, h := sp.m_widget.sizeHint.h }
                       outgoingWidgetId := entry.m_widget.objId
                       outgoingStart := entry.m_widget.opacity
                       outgoingEnd := 0
                       incomingWidgetId := sp.m_widget.objId
                       incomingStart := sp.m_widget.opacity
                       incomingEnd := 1 }
            ∧ (toolbarItemActivated d sp).m_currentPage = some sp) := by
  refine ⟨fun d sp hnone => ?_, fun d sp cur entry hcur hfind hobj => ?_,
          fun d sp cur entry hcur hfind hobj => ?_⟩
  · simp [toolbarItemActivated, hnone]
  · simp [toolbarItemActivated, hcur, hfind, hobj]
  · simp [toolbarItemActivated, hcur, hfind, hobj]

/-- Witness for C7: the three cases of the activation handler at the
concrete fixture dialog. -/
theorem crossFade_sequence_witness :
    ((toolbarItemActivated c7DialogNoCurrent entryB).m_currentPage
        = some { entryB with m_widget := { entryB.m_widget with opacity := 1 } }
      ∧ (toolbarItemActivated c7DialogNoCurrent entryB).m_animationGroup
        = c7DialogNoCurrent.m_animationGroup)
    ∧ toolbarItemActivated c7Dialog entryA = c7Dialog
    ∧ ((toolbarItemActivated c7Dialog entryB).m_animationGroup
        = some { sizeStart := entryA.m_widget.size
                 sizeEnd := { w := c7Dialog.m_maximumWidth, h := entryB.m_widget.sizeHint.h }
                 outgoingWidgetId := entryA.m_widget.objId
                 outgoingStart := entryA.m_widget.opacity
                 outgoingEnd := 0
                 incomingWidgetId := entryB.m_widget.objId
                 incomingStart := entryB.m_widget.opacity
                 incomingEnd := 1 }
      ∧ (toolbarItemActivated c7Dialog entryB).m_currentPage = some entryB) :=
  ⟨crossFade_sequence.1 c7DialogNoCurrent entryB (by decide),
   crossFade_sequence.2.1 c7Dialog entryA entryA entryA (by decide) (by decide) (by decide),
   crossFade_sequence.2.2 c7Dialog entryB entryA entryA (by decide) (by decide) (by decide)⟩

/- ===== C8 ===== -/

theorem replaceAllFuel_of_not_hasSubstr (pat rep : List Char) (fuel : Nat)
    (s : List Char) (h : hasSubstr pat s = false) :
    replaceAllFuel pat rep fuel s = s := by
  induction fuel generalizing s with
  | zero => cases s with
    | nil => rfl
    | cons c cs => rfl
  | succ fuel ih =>
    cases s with
    | nil => rfl
    | cons c cs =>
      simp only [hasSubstr, Bool.or_eq_false_iff] at h
      simp only [replaceAllFuel]
      rw [if_neg ?hneg]
      · rw [ih cs h.2]
      case hneg =>
        rintro ⟨_, hp⟩
        rw [h.1] at hp
        exact Bool.false_ne_true hp

theorem replaceAll_of_not_hasSubstr (pat rep : List Char) (s : List Char)
    (h : hasSubstr pat s = false) : replaceAll pat rep s = s :=
  replaceAllFuel_of_not_hasSubstr pat rep s.length s h

theorem stringMk_toList (s : String) : String.mk s.toList = s := by
  cases s
  rfl

/-- A string on which both replacements leave no placeholder behind. -/
theorem updateStyleSheet_fixed (x : String) (b : Bool)
    (h1 : containsPat backgroundPlaceholder x = false)
    (h2 : containsPat baseBackgroundPlaceholder x = false) :
    updateStyleSheet x b = x := by
  simp only [containsPat] at h1 h2
  cases b with
  | false =>
    simp only [updateStyleSheet, Bool.false_eq_true, if_false]
    rw [replaceAll_of_not_hasSubstr _ _ _ h1, replaceAll_of_not_hasSubstr _ _ _ h2,
      stringMk_toList]
  | true =>
    simp only [updateStyleSheet, if_true]
    rw [replaceAll_of_not_hasSubstr _ _ _ h1, replaceAll_of_not_hasSubstr _ _ _ h2,
      stringMk_toList]

/-- Adversarial input for C8: removing its [base-background-colour]
occurrence splices the surrounding text into a new [background-colour]
occurrence, which the earlier replacement pass no longer sees. -/
def c8Input : String := "[backgro[base-background-colour]und-colour]"

/-- Claim C8 counterexample: in light mode the result on c8Input still
contains the [background-colour] placeholder, and applying
updateStyleSheet again with the same flag changes the result, so the
claimed placeholder-freeness and idempotence fail on this input. -/
theorem updateStyleSheet_counterexample :
    containsPat backgroundPlaceholder (updateStyleSheet c8Input false) = true
      ∧ updateStyleSheet (updateStyleSheet c8Input false) false
          ≠ updateStyleSheet c8Input false := by
  decide

/-- Claim C8 (amended): updateStyleSheet replaces each placeholder
occurrence by the fixed dark declarations in dark mode and by the
empty string otherwise, the two replacements running sequentially
([background-colour] first); whenever the result contains neither
placeholder — in particular on the stylesheets of the dialog itself —
applying updateStyleSheet to its own result with the same flag returns
it unchanged.  A replacement may splice surrounding text of an
adversarial input into a new placeholder, so the result is not always
placeholder-free. -/
theorem updateStyleSheet_replacement :
    updateStyleSheet backgroundPlaceholder true = darkBackgroundDecl
      ∧ updateStyleSheet baseBackgroundPlaceholder true = darkBaseBackgroundDecl
      ∧ updateStyleSheet backgroundPlaceholder false = emptyReplacement
      ∧ updateStyleSheet baseBackgroundPlaceholder false = emptyReplacement
      ∧ ∀ (s : String) (b : Bool),
          containsPat backgroundPlaceholder (updateStyleSheet s b) = false →
          containsPat baseBackgroundPlaceholder (updateStyleSheet s b) = false →
          updateStyleSheet (updateStyleSheet s b) b = updateStyleSheet s b :=
  ⟨by decide, by decide, by decide, by decide,
   fun s b h1 h2 => updateStyleSheet_fixed (updateStyleSheet s b) b h1 h2⟩

/-- A stylesheet-like input whose dark-mode result is placeholder
free. -/
def sampleStylesheet : String := "QStackedWidget [background-colour] [base-background-colour]"

/-- Witness for C8 at the sample stylesheet in dark mode. -/
theorem updateStyleSheet_replacement_witness :
    updateStyleSheet (updateStyleSheet sampleStylesheet true) true
      = updateStyleSheet sampleStylesheet true :=
  updateStyleSheet_replacement.2.2.2.2 sampleStylesheet true (by decide) (by decide)

/- ===== C9 ===== -/

theorem sepInv_addWidgetToContainer (w : TransparentWidget) (p : ISettingsPage)
    (h : w.children = []
      ∨ (w.children.countP isSeparator + 1 = w.children.countP isPageWidget
          ∧ ∃ q, w.children.head? = some (MacChild.pageWidget q))) :
    (addWidgetToContainer w p).children.countP isSeparator + 1
        = (addWidgetToContainer w p).children.countP isPageWidget
      ∧ ∃ q, (addWidgetToContainer w p).children.head?
          = some (MacChild.pageWidget q) := by
  rcases h with hnil | ⟨hcount, q, hhead⟩
  · have hch : (addWidgetToContainer w p).children = [MacChild.pageWidget p] := by
      simp [addWidgetToContainer, hnil]
    rw [hch]
    refine ⟨?_, ⟨p, rfl⟩⟩
    simp [List.countP_cons, List.countP_nil, isSeparator, isPageWidget]
  · obtain ⟨c, cs, hc⟩ : ∃ c cs, w.children = c :: cs := by
      cases hw : w.children with
      | nil => rw [hw] at hhead; simp at hhead
      | cons c cs => exact ⟨c, cs, rfl⟩
    have hlen : w.children.length ≠ 0 := by
      rw [hc]
      simp
    have hch : (addWidgetToContainer w p).children
        = w.children ++ [MacChild.separator, MacChild.pageWidget p] := by
      simp [addWidgetToContainer, hlen]
    rw [hch]
    constructor
    · simp [List.countP_append, List.countP_cons, List.countP_nil, isSeparator,
        isPageWidget]
      omega
    · refine ⟨q, ?_⟩
      rw [hc] at hhead ⊢
      simpa using hhead

theorem sepInv_addPageMac (entries : List MacSettingsPage) (n : Nat)
    (p : ISettingsPage)
    (h : ∀ e ∈ entries,
      e.m_widget.children.countP isSeparator + 1
          = e.m_widget.children.countP isPageWidget
        ∧ ∃ q, e.m_widget.children.head? = some (MacChild.pageWidget q)) :
    ∀ e ∈ addPageMac entries n p,
      e.m_widget.children.countP isSeparator + 1
          = e.m_widget.children.countP isPageWidget
        ∧ ∃ q, e.m_widget.children.head? = some (MacChild.pageWidget q) := by
  induction entries with
  | nil =>
    intro e he
    simp only [addPageMac, List.mem_singleton] at he
    subst he
    exact sepInv_addWidgetToContainer (newTransparentWidget n) p (Or.inl rfl)
  | cons e0 rest ih =>
    intro e he
    by_cases hcase : e0.m_name = p.sectionName
    · simp only [addPageMac, if_pos hcase, List.mem_cons] at he
      rcases he with heq | hmem
      · subst heq
        exact sepInv_addWidgetToContainer e0.m_widget p
          (Or.inr (h e0 (List.mem_cons_self e0 rest)))
      · exact h e (List.mem_cons_of_mem e0 hmem)
    · simp only [addPageMac, if_neg hcase, List.mem_cons] at he
      rcases he with heq | hmem
      · subst heq
        exact h e (List.mem_cons_self e rest)
      · exact ih (fun e2 h2 => h e2 (List.mem_cons_of_mem e0 h2)) e hmem

theorem sepInv_foldl_buildMacStep (ps : List ISettingsPage)
    (acc : List MacSettingsPage) (n : Nat)
    (h : ∀ e ∈ acc,
      e.m_widget.children.countP isSeparator + 1
          = e.m_widget.children.countP isPageWidget
        ∧ ∃ q, e.m_widget.children.head? = some (MacChild.pageWidget q)) :
    ∀ e ∈ (ps.foldl buildMacStep (acc, n)).1,
      e.m_widget.children.countP isSeparator + 1
          = e.m_widget.children.countP isPageWidget
        ∧ ∃ q, e.m_widget.children.head? = some (MacChild.pageWidget q) := by
  induction ps generalizing acc n with
  | nil => exact h
  | cons p ps ih =>
    simp only [List.foldl_cons, buildMacStep]
    exact ih (addPageMac acc n p) (n + 1) (sepInv_addPageMac acc n p h)

/-- Claim C9: a separator never leads a section container.  A
separator is inserted exactly when the container already holds some
widget and a further page widget is added; consequently every section
container of a constructed dialog holds one separator fewer than page
widgets, and its first child is a page widget, never a separator. -/
theorem separator_never_leads :
    (∀ (w : TransparentWidget) (p : ISettingsPage),
        w.children = [] →
          (addWidgetToContainer w p).children = [MacChild.pageWidget p])
    ∧ (∀ (w : TransparentWidget) (p : ISettingsPage),
        w.children ≠ [] →
          (addWidgetToContainer w p).children
            = w.children ++ [MacChild.separator, MacChild.pageWidget p])
    ∧ (∀ pages : List ISettingsPage, ∀ e ∈ buildMac pages,
        e.m_widget.children.countP isSeparator + 1
            = e.m_widget.children.countP isPageWidget
          ∧ ∃ q, e.m_widget.children.head? = some (MacChild.pageWidget q)) := by
  refine ⟨fun w p hnil => ?_, fun w p hne => ?_, fun pages => ?_⟩
  · simp [addWidgetToContainer, hnil]
  · have hlen : w.children.length ≠ 0 := by
      intro h0
      exact hne (List.length_eq_zero.mp h0)
    simp [addWidgetToContainer, hlen]
  · exact sepInv_foldl_buildMacStep pages [] 0 (by simp)

/-- The single section container built from two pages of the same
section. -/
def c9Entry : MacSettingsPage :=
  { m_name := secGeneral
    m_widget := { objId := 0
                  children := [MacChild.pageWidget pageValid, MacChild.separator,
                               MacChild.pageWidget pageValidSame]
                  opacity := 0, size := { w := 0, h := 0 }, sizeHint := { w := 0, h := 0 } }
    m_pageSettings := [pageValid, pageValidSame]
    m_toolbarItem := 0 }

/-- Witness for C9: the two insertion shapes at concrete containers
and the invariant at the container built from two same-section
pages. -/
theorem separator_never_leads_witness :
    (addWidgetToContainer (newTransparentWidget 5) pageValid).children
        = [MacChild.pageWidget pageValid]
      ∧ (addWidgetToContainer widgetA pageValidSame).children
        = widgetA.children ++ [MacChild.separator, MacChild.pageWidget pageValidSame]
      ∧ (c9Entry.m_widget.children.countP isSeparator + 1
            = c9Entry.m_widget.children.countP isPageWidget
          ∧ ∃ q, c9Entry.m_widget.children.head? = some (MacChild.pageWidget q)) :=
  ⟨separator_never_leads.1 (newTransparentWidget 5) pageValid (by decide),
   separator_never_leads.2.1 widgetA pageValidSame (by decide),
   separator_never_leads.2.2 [pageValid, pageValidSame] c9Entry (by decide)⟩

/- ===== C10 ===== -/

/-- Claim C10: sizeHint() follows the current page: when a page is
current it returns the size hint of that page container; when no page
is current it returns the QWidget base-class size hint. -/
theorem sizeHint_follows_current :
    (∀ (d : MacDialog) (p : MacSettingsPage),
        d.m_currentPage = some p → dialogSizeHint d = p.m_widget.sizeHint)
    ∧ (∀ d : MacDialog,
        d.m_currentPage = none → dialogSizeHint d = d.qwidgetSizeHint) := by
  refine ⟨fun d p h => ?_, fun d h => ?_⟩
  · simp [dialogSizeHint, h]
  · simp [dialogSizeHint, h]

/-- Witness for C10 at the C7 fixture dialog, with and without a
current page. -/
theorem sizeHint_follows_current_witness :
    dialogSizeHint c7Dialog = entryA.m_widget.sizeHint
      ∧ dialogSizeHint c7DialogNoCurrent = c7DialogNoCurrent.qwidgetSizeHint :=
  ⟨sizeHint_follows_current.1 c7Dialog entryA (by decide),
   sizeHint_follows_current.2 c7DialogNoCurrent (by decide)⟩

end SettingsDialogModel
